import Mathlib

/-!
Verification development for the `static-host` interactive 2D presentation
engine: a shallow embedding of its observable store (`DataStore`), task
scheduler (`ScheduledTask` / `AnimationTask` / `TaskScheduler`), unit
position binding (`Unit.bindPositionRelativeTo` / `Unit.update`), pointer
dispatch (`GestureDetector`) and the default hit test
(`hitTestDefaultFactory`), together with theorems about their behaviour.

Conventions: JavaScript numbers are modelled as `ℚ` (the operations the
theorems touch are exact), except the trigonometric hit test which is
modelled over `ℝ`.  Callbacks are modelled by identity (listener ids) plus,
where a callback's behaviour matters, an explicit behaviour parameter or a
deep-embedded action.  Fallible code returns `Except`.
-/

namespace StaticHost

/-- A JavaScript value, as far as the store semantics distinguishes them:
`null` and `undefined` are the two values that `get`'s loose `!= null`
check rejects; other values (numbers, strings, booleans — including the
falsy `0`, `""`, `false`) pass it. -/
inductive Val where
  | null
  | undefined
  | num (q : ℚ)
  | str (s : String)
  | bool (b : Bool)
deriving DecidableEq

/-- Replace the binding of `k` in an association list (every matching entry),
or append a fresh binding when none exists.  This is the effect of
`this._listeners[key] = ...` on a JS object modelled as an assoc list. -/
def updateAssoc {α : Type} (l : List (String × α)) (k : String) (v : α) :
    List (String × α) :=
  if l.any (fun p => p.1 == k) then
    l.map (fun p => if p.1 == k then (k, v) else p)
  else l ++ [(k, v)]

/-- The observable store `DataStore`: `_data` is the key→value object
(later writes shadow earlier ones: we cons and look up the first match),
`_listeners` the key→subscriber-array object.  Listeners are identified by
ids (`ℕ`); `DataStore.set` reports the dispatch trace. -/
structure DataStore where
  data : List (String × Val)
  listeners : List (String × List ℕ)

def DataStore.empty : DataStore := ⟨[], []⟩

/-- Source `this._listeners[key] || []`. -/
def listenersOf (s : DataStore) (k : String) : List ℕ :=
  match s.listeners.find? (fun p => p.1 == k) with
  | some p => p.2
  | none => []

/-- Source `this._data[key]` — reading an absent property of a JS object yields
`undefined`. -/
def dataOf (s : DataStore) (k : String) : Val :=
  match s.data.find? (fun p => p.1 == k) with
  | some p => p.2
  | none => .undefined

/-- Source `DataStore.set(key, value)`: store the value, then invoke every listener
registered for the key, in registration order, passing the new value.  The
second component is the dispatch trace: which listener was invoked with
which argument, in order. -/
def DataStore.set (s : DataStore) (k : String) (v : Val) :
    DataStore × List (ℕ × Val) :=
  ({ s with data := (k, v) :: s.data },
   (listenersOf s k).map (fun f => (f, v)))

/-- Source `DataStore.get(key)`: return the value if it passes the loose
`!= null` check, otherwise throw `"Empty key in store: " + key`.  The loose
check rejects exactly `null` and `undefined` (an unset key reads as
`undefined`). -/
def DataStore.get (s : DataStore) (k : String) : Except String Val :=
  let v := dataOf s k
  if v = .null ∨ v = .undefined then
    .error ("Empty key in store: " ++ k)
  else
    .ok v

/-- Source `DataStore.onChange(key, fn)`: `this._listeners[key] =
this._listeners[key] || []; this._listeners[key].push(fn)`. -/
def DataStore.onChange (s : DataStore) (k : String) (f : ℕ) : DataStore :=
  { s with listeners := updateAssoc s.listeners k (listenersOf s k ++ [f]) }

/-- Source `DataStore.removeOnChange(key, fn)`: filter out every registration of
`fn` under `key` (identity comparison `f !== fn`). -/
def DataStore.removeOnChange (s : DataStore) (k : String) (f : ℕ) : DataStore :=
  { s with listeners :=
      updateAssoc s.listeners k ((listenersOf s k).filter (fun g => g ≠ f)) }

/-- Dispatch loop of `DataStore.set` when listeners may throw, exactly as the
source has it: `forEach(fn => { fn(value) })` with **no** try/catch.  `throws`
says which listeners throw when invoked.  Returns the list of listeners that
were actually invoked (in order) and `true` iff the dispatch finished without
an exception escaping.  A listener that throws is invoked, the exception
escapes, and the listeners after it are never reached. -/
def notifyAll (throws : ℕ → Bool) : List ℕ → List ℕ × Bool
  | [] => ([], true)
  | f :: rest =>
    if throws f then ([f], false)
    else
      let r := notifyAll throws rest
      (f :: r.1, r.2)

/-- Source `DataStore.set` with possibly-throwing listeners: the assignment
`this._data[key] = value` happens first, then the unprotected `forEach`
dispatch. -/
def DataStore.setNoCatch (s : DataStore) (throws : ℕ → Bool) (k : String)
    (v : Val) : DataStore × List ℕ × Bool :=
  ({ s with data := (k, v) :: s.data }, notifyAll throws (listenersOf s k))

/-! ### Basic store lemmas -/

theorem find?_map_replace {α : Type} (k : String) (v : α) :
    ∀ (l : List (String × α)), l.any (fun p => p.1 == k) = true →
      (l.map (fun p => if p.1 == k then (k, v) else p)).find?
        (fun p => p.1 == k) = some (k, v)
  | [], h => by simp at h
  | p :: rest, h => by
    by_cases hp : (p.1 == k) = true
    · rw [List.map_cons, if_pos hp, List.find?_cons_of_pos _ (by simp)]
    · rw [List.map_cons, if_neg hp, List.find?_cons_of_neg _ (by simpa using hp)]
      exact find?_map_replace k v rest (by
        rcases List.any_eq_true.mp h with ⟨q, hq, hqk⟩
        cases hq with
        | head => exact absurd hqk hp
        | tail _ hq' => exact List.any_eq_true.mpr ⟨q, hq', hqk⟩)

theorem find?_append_self {α : Type} (k : String) (v : α) :
    ∀ (l : List (String × α)), l.any (fun p => p.1 == k) = false →
      (l ++ [(k, v)]).find? (fun p => p.1 == k) = some (k, v)
  | [], _ => by simp [List.find?]
  | p :: rest, h => by
    have hp : (p.1 == k) = false := by
      simp only [List.any_cons, Bool.or_eq_false_iff] at h
      exact h.1
    rw [List.cons_append, List.find?_cons_of_neg _ (by simp [hp])]
    exact find?_append_self k v rest (by
      simp only [List.any_cons, Bool.or_eq_false_iff] at h
      exact h.2)

theorem find?_updateAssoc {α : Type} (l : List (String × α)) (k : String)
    (v : α) :
    (updateAssoc l k v).find? (fun p => p.1 == k) = some (k, v) := by
  unfold updateAssoc
  by_cases h : l.any (fun p => p.1 == k)
  · rw [if_pos h]
    exact find?_map_replace k v l h
  · rw [if_neg h]
    have h' : l.any (fun p => p.1 == k) = false := by
      cases hb : l.any (fun p => p.1 == k)
      · rfl
      · exact absurd hb h
    exact find?_append_self k v l h'

theorem listenersOf_onChange (s : DataStore) (k : String) (f : ℕ) :
    listenersOf (s.onChange k f) k = listenersOf s k ++ [f] := by
  show (match (updateAssoc s.listeners k (listenersOf s k ++ [f])).find?
      (fun p => p.1 == k) with
    | some p => p.2
    | none => []) = listenersOf s k ++ [f]
  rw [find?_updateAssoc]

theorem listenersOf_removeOnChange (s : DataStore) (k : String) (f : ℕ) :
    listenersOf (s.removeOnChange k f) k
      = (listenersOf s k).filter (fun g => g ≠ f) := by
  show (match (updateAssoc s.listeners k
      ((listenersOf s k).filter (fun g => g ≠ f))).find?
      (fun p => p.1 == k) with
    | some p => p.2
    | none => []) = (listenersOf s k).filter (fun g => g ≠ f)
  rw [find?_updateAssoc]

theorem dataOf_set (s : DataStore) (k : String) (v : Val) :
    dataOf (s.set k v).1 k = v := by
  show (match ((k, v) :: s.data).find? (fun p => p.1 == k) with
    | some p => p.2
    | none => Val.undefined) = v
  rw [List.find?_cons_of_pos _ (by simp)]

theorem notifyAll_append (throws : ℕ → Bool) :
    ∀ (pre : List ℕ) (f : ℕ) (post : List ℕ),
      (∀ g ∈ pre, throws g = false) → throws f = true →
      notifyAll throws (pre ++ f :: post) = (pre ++ [f], false)
  | [], f, post, _, hf => by simp [notifyAll, hf]
  | g :: pre, f, post, hpre, hf => by
    have hg : throws g = false := hpre g (List.mem_cons_self ..)
    have ih := notifyAll_append throws pre f post
      (fun x hx => hpre x (List.mem_cons_of_mem _ hx)) hf
    simp [notifyAll, hg, ih]

/-! ### Claims C1–C3 -/

theorem filter_beq_of_nodup {l : List ℕ} {li : ℕ} (hnd : l.Nodup)
    (hmem : li ∈ l) : l.filter (fun g => g == li) = [li] := by
  induction l with
  | nil => cases hmem
  | cons a tl ih =>
    rcases List.mem_cons.mp hmem with rfl | hmem'
    · rw [List.filter_cons_of_pos (by simp)]
      have htl : tl.filter (fun g => g == li) = [] := by
        rw [List.filter_eq_nil_iff]
        intro b hb
        simp only [beq_iff_eq]
        rintro rfl
        exact (List.nodup_cons.mp hnd).1 hb
      rw [htl]
    · have hne : a ≠ li := by
        rintro rfl
        exact (List.nodup_cons.mp hnd).1 hmem'
      rw [List.filter_cons_of_neg (by simpa using hne)]
      exact ih (List.nodup_cons.mp hnd).2 hmem'

/-- C1 (Store fan-out): `set(k, v)` synchronously dispatches to exactly the
listeners currently registered for `k`, in registration order, each with
argument `v`; a listener therefore gets invoked exactly once; a listener
removed with `removeOnChange(k, li)` before the `set` call is not invoked;
and `onChange` appends registrations at the end, so the listener list is in
registration order. -/
theorem store_fanout (s : DataStore) (k : String) (v : Val) (li : ℕ)
    (hnd : (listenersOf s k).Nodup) (hmem : li ∈ listenersOf s k) :
    (s.set k v).2 = (listenersOf s k).map (fun f => (f, v)) ∧
    ((s.set k v).2.filter (fun p => p.1 == li)).length = 1 ∧
    (((s.removeOnChange k li).set k v).2.filter
      (fun p => p.1 == li)).length = 0 ∧
    (∀ g : ℕ, listenersOf (s.onChange k g) k = listenersOf s k ++ [g]) := by
  refine ⟨rfl, ?_, ?_, fun g => listenersOf_onChange s k g⟩
  · show (((listenersOf s k).map (fun f => (f, v))).filter
      (fun p => p.1 == li)).length = 1
    rw [List.filter_map]
    have hcomp : ((fun p : ℕ × Val => p.1 == li) ∘ (fun f => (f, v)))
        = (fun g => g == li) := rfl
    rw [hcomp, filter_beq_of_nodup hnd hmem]
    rfl
  · show (((listenersOf (s.removeOnChange k li) k).map
      (fun f => (f, v))).filter (fun p => p.1 == li)).length = 0
    rw [listenersOf_removeOnChange, List.filter_map]
    have hcomp : ((fun p : ℕ × Val => p.1 == li) ∘ (fun f => (f, v)))
        = (fun g => g == li) := rfl
    rw [hcomp]
    have hnil : (((listenersOf s k).filter (fun g => g ≠ li)).filter
        (fun g => g == li)) = [] := by
      rw [List.filter_eq_nil_iff]
      intro b hb
      have := List.of_mem_filter hb
      simpa using this
    rw [hnil]
    rfl

/-- Witness for `store_fanout` at a concrete store with listeners 0 and 1
registered on "k". -/
theorem store_fanout_witness :
    (listenersOf ((DataStore.empty.onChange "k" 0).onChange "k" 1) "k").Nodup ∧
    0 ∈ listenersOf ((DataStore.empty.onChange "k" 0).onChange "k" 1) "k" ∧
    ((((DataStore.empty.onChange "k" 0).onChange "k" 1).set "k"
        (Val.num 7)).2.filter (fun p => p.1 == 0)).length = 1 ∧
    (((((DataStore.empty.onChange "k" 0).onChange "k" 1).removeOnChange "k"
        0).set "k" (Val.num 7)).2.filter (fun p => p.1 == 0)).length = 0 :=
  have h := store_fanout ((DataStore.empty.onChange "k" 0).onChange "k" 1)
    "k" (Val.num 7) 0 (by decide) (by decide)
  ⟨by decide, by decide, h.2.1, h.2.2.1⟩

/-- C2 counterexample: the claim says a listener's exception is caught at the
dispatch site and the remaining listeners still run.  In the source,
`DataStore.set`'s `forEach(fn => { fn(value) })` has no try/catch: with
listeners 0 and 1 registered on "k" and listener 0 throwing, only listener 0
is invoked, the exception escapes `set`, and listener 1 never runs. -/
theorem listener_throw_not_isolated :
    ((((DataStore.empty.onChange "k" 0).onChange "k" 1).setNoCatch
        (fun f => f == 0) "k" (Val.num 1)).2.1 = [0]) ∧
    ((((DataStore.empty.onChange "k" 0).onChange "k" 1).setNoCatch
        (fun f => f == 0) "k" (Val.num 1)).2.2 = false) ∧
    1 ∉ (((DataStore.empty.onChange "k" 0).onChange "k" 1).setNoCatch
        (fun f => f == 0) "k" (Val.num 1)).2.1 := by
  decide

/-- C2 amended: if a listener throws during `set(k, v)`, the exception
propagates out of `set` (there is no catch at the dispatch site) and the
listeners registered after it are not invoked; the listeners registered
before it ran normally. -/
theorem listener_throw_aborts (s : DataStore) (throws : ℕ → Bool)
    (k : String) (v : Val) (pre post : List ℕ) (f : ℕ)
    (hL : listenersOf s k = pre ++ f :: post)
    (hpre : ∀ g ∈ pre, throws g = false) (hf : throws f = true) :
    (s.setNoCatch throws k v).2.1 = pre ++ [f] ∧
    (s.setNoCatch throws k v).2.2 = false := by
  show (notifyAll throws (listenersOf s k)).1 = pre ++ [f] ∧
    (notifyAll throws (listenersOf s k)).2 = false
  rw [hL, notifyAll_append throws pre f post hpre hf]
  exact ⟨rfl, rfl⟩

/-- Witness for `listener_throw_aborts`: listeners 5, 0, 9 on "k", listener 0
throws: 5 and 0 are invoked, the exception escapes, 9 is not invoked. -/
theorem listener_throw_aborts_witness :
    listenersOf (((DataStore.empty.onChange "k" 5).onChange "k" 0).onChange
      "k" 9) "k" = [5] ++ 0 :: [9] ∧
    ((((DataStore.empty.onChange "k" 5).onChange "k" 0).onChange "k"
        9).setNoCatch (fun f => f == 0) "k" Val.null).2.1 = [5] ++ [0] ∧
    ((((DataStore.empty.onChange "k" 5).onChange "k" 0).onChange "k"
        9).setNoCatch (fun f => f == 0) "k" Val.null).2.2 = false :=
  have h := listener_throw_aborts
    (((DataStore.empty.onChange "k" 5).onChange "k" 0).onChange "k" 9)
    (fun f => f == 0) "k" Val.null [5] [9] 0 (by decide)
    (by decide) (by decide)
  ⟨by decide, h.1, h.2⟩

/-- C3 counterexample: the claim says `get(k)` raises exactly when `k` has
never been set, and that after any `set(k, v)` a `get(k)` returns `v`.  But
the source's `get` uses the loose check `this._data[key] != null`: after
`set("k", null)` — the key **has** been set — `get("k")` still throws the
missing-key error. -/
theorem get_after_set_null_fails :
    ((DataStore.empty.set "k" Val.null).1).get "k"
      = Except.error "Empty key in store: k" := rfl

/-- C3 amended: `get(k)` raises the missing-key error exactly when the value
currently stored at `k` is `null` or `undefined` — in particular when `k`
has never been set (an unset key reads as `undefined`); after `set(k, v)`
for any `v` other than `null`/`undefined` (including the falsy `0`, `""`,
`false`), `get(k)` returns `v`. -/
theorem get_missing_key (s : DataStore) (k : String) (v : Val)
    (hv : v ≠ Val.null) (hv' : v ≠ Val.undefined) :
    (s.set k v).1.get k = Except.ok v ∧
    DataStore.empty.get k = Except.error ("Empty key in store: " ++ k) ∧
    (∀ t : DataStore,
      t.get k = Except.error ("Empty key in store: " ++ k)
        ↔ (dataOf t k = Val.null ∨ dataOf t k = Val.undefined)) := by
  refine ⟨?_, rfl, fun t => ?_⟩
  · unfold DataStore.get
    simp only [dataOf_set]
    rw [if_neg (by tauto)]
  · unfold DataStore.get
    by_cases h : dataOf t k = Val.null ∨ dataOf t k = Val.undefined
    · simp [h]
    · simp only [h, if_false, iff_false]
      intro hc
      exact absurd hc (by simp)

/-- Witness for `get_missing_key`: setting "k" to the falsy value `0` still
lets `get` return it. -/
theorem get_missing_key_witness :
    (Val.num 0 ≠ Val.null) ∧ (Val.num 0 ≠ Val.undefined) ∧
    (DataStore.empty.set "k" (Val.num 0)).1.get "k"
      = Except.ok (Val.num 0) :=
  ⟨by decide, by decide,
    (get_missing_key DataStore.empty "k" (Val.num 0) (by decide)
      (by decide)).1⟩

/-! ## Scheduler and tasks

`ScheduledTask` and its subclass `AnimationTask` are modelled as one
structure with a kind tag (the spec's own suggestion for the class
hierarchy).  Times are `ℚ` (`performance.now()` values).  `repeat` is a Lean
keyword, so the field is called `rep`. -/

/-- Payload distinguishing a plain `ScheduledTask` from an `AnimationTask`
(which carries the interpolation data and its own start instant). -/
inductive TaskKind where
  | plain
  | anim (startVal endVal : ℚ) (curve : ℚ → ℚ) (duration : ℚ) (animStart : ℚ)

/-- Common task state.  `rep` is the constructor's `repeat` argument,
`remaining` the countdown initialised to it, `lastRun` the timing base used
by `shouldRun`. -/
structure Task where
  name : String
  delay : ℚ
  rep : Int
  remaining : Int
  lastRun : ℚ
  pausedAt : Option ℚ
  totalPausedTime : ℚ
  channels : List String
  kind : TaskKind

/-- Source `ScheduledTask.INFINITE = -1`. -/
def INFINITE : Int := -1

/-- The `ScheduledTask` constructor, with `now` standing for
`performance.now()` at construction time. -/
def mkScheduledTask (name : String) (delay : ℚ) (rep : Int)
    (channels : List String) (now : ℚ) : Task :=
  { name := name, delay := delay, rep := rep, remaining := rep,
    lastRun := now, pausedAt := none, totalPausedTime := 0,
    channels := channels, kind := .plain }

/-- The `AnimationTask` constructor: `super(name, 0, INFINITE, ...)`, then
the animation fields; `animStart` is the construction instant. -/
def mkAnimationTask (name : String) (startVal endVal : ℚ) (curve : ℚ → ℚ)
    (duration : ℚ) (channels : List String) (now : ℚ) : Task :=
  { name := name, delay := 0, rep := INFINITE, remaining := INFINITE,
    lastRun := now, pausedAt := none, totalPausedTime := 0,
    channels := channels,
    kind := .anim startVal endVal curve duration now }

/-- Source `shouldRun(now)`: `now - this.lastRun >= this.delay`. -/
def Task.shouldRun (t : Task) (now : ℚ) : Bool :=
  decide (t.delay ≤ now - t.lastRun)

/-- Source `run(now)` for both task classes.  Returns the updated task, the
"still active" flag, and the argument the callback was invoked with
(`none` for a plain task's zero-argument action).

Plain task: invoke `fn`, set `lastRun := now`, decrement `remaining` unless
`repeat` is infinite, report active iff `remaining !== 0`.

Animation task: elapsed wall-clock time corrected for pauses, raw progress
clamped to `[0, 1]`, eased, linearly interpolated between `startVal` and
`endVal`; `fn(value)`; active iff `elapsed < duration`. -/
def Task.run (t : Task) (now : ℚ) : Task × Bool × Option ℚ :=
  match t.kind with
  | .plain =>
    let remaining' := if t.rep ≠ INFINITE then t.remaining - 1 else t.remaining
    ({ t with lastRun := now, remaining := remaining' },
     decide (remaining' ≠ 0), none)
  | .anim startVal endVal curve duration animStart =>
    let elapsed := now - animStart - t.totalPausedTime
    let rawProgress := min 1 (max 0 (elapsed / duration))
    let curvedProgress := curve rawProgress
    let value := startVal + (endVal - startVal) * curvedProgress
    ({ t with lastRun := now }, decide (elapsed < duration), some value)

/-- Source `notifyPaused(now)`: record the pause instant (both classes). -/
def Task.notifyPaused (t : Task) (now : ℚ) : Task :=
  { t with pausedAt := some now }

/-- Source `notifyResumed(now)`: fold the paused interval back into the timing
base — a plain task shifts `lastRun` forward by the paused duration, an
animation task accumulates it into `totalPausedTime`. -/
def Task.notifyResumed (t : Task) (now : ℚ) : Task :=
  match t.pausedAt with
  | none => t
  | some p =>
    match t.kind with
    | .plain =>
      { t with lastRun := t.lastRun + (now - p), pausedAt := none }
    | .anim .. =>
      { t with totalPausedTime := t.totalPausedTime + (now - p),
               pausedAt := none }

/-- The `TaskScheduler` state. -/
structure Scheduler where
  tasks : List Task
  running : Bool
  now : ℚ
  pausedChannels : List String

def initScheduler : Scheduler :=
  { tasks := [], running := false, now := 0, pausedChannels := [] }

/-- Source `remove(name)`: drop every task of that name. -/
def Scheduler.remove (s : Scheduler) (name : String) : Scheduler :=
  { s with tasks := s.tasks.filter (fun t => t.name != name) }

/-- Source `add(name, delay, repeat, fn, channels)`: remove any existing task of
the same name, then push a fresh plain task. -/
def Scheduler.add (s : Scheduler) (name : String) (delay : ℚ) (rep : Int)
    (channels : List String) (now : ℚ) : Scheduler :=
  let s' := s.remove name
  { s' with tasks := s'.tasks ++ [mkScheduledTask name delay rep channels now] }

/-- Source `addAnim(name, startVal, endVal, curve, duration, fn, channels)`:
remove any existing task of the same name, then push a fresh animation
task. -/
def Scheduler.addAnim (s : Scheduler) (name : String) (startVal endVal : ℚ)
    (curve : ℚ → ℚ) (duration : ℚ) (channels : List String) (now : ℚ) :
    Scheduler :=
  let s' := s.remove name
  { s' with tasks :=
      s'.tasks ++ [mkAnimationTask name startVal endVal curve duration
        channels now] }

/-- One `add`/`addAnim`/`remove` call, as data (for quantifying over
operation sequences). -/
inductive SchedOp where
  | add (name : String) (delay : ℚ) (rep : Int) (channels : List String)
      (now : ℚ)
  | addAnim (name : String) (startVal endVal : ℚ) (curve : ℚ → ℚ)
      (duration : ℚ) (channels : List String) (now : ℚ)
  | remove (name : String)

def applyOp (s : Scheduler) : SchedOp → Scheduler
  | .add name delay rep channels now => s.add name delay rep channels now
  | .addAnim name sv ev curve duration channels now =>
      s.addAnim name sv ev curve duration channels now
  | .remove name => s.remove name

/-- The body of the scheduler's per-frame loop, restricted to the task list:
tasks whose channel set meets the paused set are skipped; a due task is run;
a task that reports inactive is removed.  The second component is the trace
of callback invocations `(task name, argument)` in order.  (The source
iterates over a snapshot while `remove` rewrites `this.tasks`; with the
inert callbacks modelled here the two lists stay in sync, so the loop is a
single structural pass.) -/
def tickTasks (paused : List String) (now : ℚ) :
    List Task → List Task × List (String × Option ℚ)
  | [] => ([], [])
  | t :: rest =>
    if t.channels.any (fun ch => paused.contains ch) then
      let r := tickTasks paused now rest
      (t :: r.1, r.2)
    else if t.shouldRun now then
      let (t', active, v) := t.run now
      let r := tickTasks paused now rest
      if active then (t' :: r.1, (t.name, v) :: r.2)
      else (r.1, (t.name, v) :: r.2)
    else
      let r := tickTasks paused now rest
      (t :: r.1, r.2)

/-- One scheduler frame at timestamp `now`. -/
def Scheduler.tick (s : Scheduler) (now : ℚ) :
    Scheduler × List (String × Option ℚ) :=
  let r := tickTasks s.pausedChannels now s.tasks
  ({ s with now := now, tasks := r.1 }, r.2)

/-- Iterated frames, accumulating the invocation trace. -/
def Scheduler.tickN (s : Scheduler) : List ℚ →
    Scheduler × List (String × Option ℚ)
  | [] => (s, [])
  | now :: rest =>
    let r := s.tick now
    let r' := r.1.tickN rest
    (r'.1, r.2 ++ r'.2)

/-- Source `pause(channel)`: mark the channel paused and notify every task carrying
it, passing the scheduler's current timestamp. -/
def Scheduler.pause (s : Scheduler) (channel : String) : Scheduler :=
  { s with
    pausedChannels := s.pausedChannels ++ [channel],
    tasks := s.tasks.map (fun t =>
      if t.channels.contains channel then t.notifyPaused s.now else t) }

/-- Source `resume(channel)`: unmark the channel and notify every task carrying
it. -/
def Scheduler.resume (s : Scheduler) (channel : String) : Scheduler :=
  { s with
    pausedChannels := s.pausedChannels.filter (fun c => c != channel),
    tasks := s.tasks.map (fun t =>
      if t.channels.contains channel then t.notifyResumed s.now else t) }

/-! ### Claim C4 -/

theorem namesNodup_remove (s : Scheduler) (n : String)
    (h : (s.tasks.map Task.name).Nodup) :
    ((s.remove n).tasks.map Task.name).Nodup := by
  have hsub : ((s.tasks.filter (fun t => t.name != n)).map Task.name).Sublist
      (s.tasks.map Task.name) :=
    (List.filter_sublist _).map Task.name
  exact h.sublist hsub

theorem name_not_mem_remove (s : Scheduler) (n : String) :
    n ∉ (s.remove n).tasks.map Task.name := by
  intro hmem
  rcases List.mem_map.mp hmem with ⟨t, ht, hname⟩
  have := List.of_mem_filter ht
  simp [hname] at this

theorem namesNodup_append_new (l : List Task) (t : Task)
    (h : (l.map Task.name).Nodup) (hnot : t.name ∉ l.map Task.name) :
    ((l ++ [t]).map Task.name).Nodup := by
  rw [List.map_append]
  refine List.Nodup.append h (by simp) ?_
  intro x hx hx'
  simp only [List.map_cons, List.map_nil, List.mem_singleton] at hx'
  subst hx'
  exact hnot hx

theorem namesNodup_applyOp (s : Scheduler) (op : SchedOp)
    (h : (s.tasks.map Task.name).Nodup) :
    ((applyOp s op).tasks.map Task.name).Nodup := by
  cases op with
  | add n delay rep channels now =>
    exact namesNodup_append_new _ _ (namesNodup_remove s n h)
      (name_not_mem_remove s n)
  | addAnim n sv ev curve dur channels now =>
    exact namesNodup_append_new _ _ (namesNodup_remove s n h)
      (name_not_mem_remove s n)
  | remove n => exact namesNodup_remove s n h

theorem filter_name_append_new (l : List Task) (n : String) (t : Task)
    (ht : t.name = n) :
    ((l.filter (fun u => u.name != n)) ++ [t]).filter
      (fun u => u.name == n) = [t] := by
  rw [List.filter_append]
  have h1 : (l.filter (fun u => u.name != n)).filter
      (fun u => u.name == n) = [] := by
    rw [List.filter_eq_nil_iff]
    intro u hu
    have := List.of_mem_filter hu
    simp only [bne_iff_ne, ne_eq, decide_not] at this ⊢
    simpa using this
  rw [h1, List.filter_cons_of_pos (by simp [ht]), List.filter_nil,
    List.nil_append]

/-- C4 (Task-name uniqueness): after any sequence of `add`/`addAnim`/
`remove` operations starting from a fresh scheduler, the task names are
pairwise distinct; moreover `add` (and `addAnim`) on *any* scheduler state
first removes the tasks of that name and then pushes one fresh task, so
exactly one task of that name remains scheduled afterwards. -/
theorem task_name_unique (ops : List SchedOp) (s : Scheduler) (n : String)
    (delay : ℚ) (rep : Int) (channels : List String) (now : ℚ)
    (sv ev : ℚ) (curve : ℚ → ℚ) (dur : ℚ) :
    ((ops.foldl applyOp initScheduler).tasks.map Task.name).Nodup ∧
    ((s.add n delay rep channels now).tasks.filter
      (fun t => t.name == n)).length = 1 ∧
    ((s.addAnim n sv ev curve dur channels now).tasks.filter
      (fun t => t.name == n)).length = 1 := by
  refine ⟨?_, ?_, ?_⟩
  · induction ops using List.reverseRecOn with
    | nil => simp [initScheduler]
    | append_singleton ops op ih =>
      rw [List.foldl_append, List.foldl_cons, List.foldl_nil]
      exact namesNodup_applyOp _ op ih
  · show (((s.tasks.filter (fun t => t.name != n))
      ++ [mkScheduledTask n delay rep channels now]).filter
        (fun t => t.name == n)).length = 1
    rw [filter_name_append_new s.tasks n
      (mkScheduledTask n delay rep channels now) rfl]
    rfl
  · show (((s.tasks.filter (fun t => t.name != n))
      ++ [mkAnimationTask n sv ev curve dur channels now]).filter
        (fun t => t.name == n)).length = 1
    rw [filter_name_append_new s.tasks n
      (mkAnimationTask n sv ev curve dur channels now) rfl]
    rfl

/-! ### Claim C5 -/

/-- C5 (Pause/resume time correction): for a plain task, `notifyPaused` at
`tp` followed by `notifyResumed` at `tr` (with nothing running in between)
shifts `lastRun` forward by the paused duration `P = tr - tp` and leaves
`delay` untouched, so `shouldRun(now)` first holds at
`originalDueTime + P = (lastRun + delay) + (tr - tp)` rather than at
`lastRun + delay`. -/
theorem pause_resume_correction (t : Task) (tp tr : ℚ)
    (hk : t.kind = TaskKind.plain) :
    ((t.notifyPaused tp).notifyResumed tr).lastRun
      = t.lastRun + (tr - tp) ∧
    ((t.notifyPaused tp).notifyResumed tr).delay = t.delay ∧
    (∀ now : ℚ, ((t.notifyPaused tp).notifyResumed tr).shouldRun now = true
      ↔ (t.lastRun + t.delay) + (tr - tp) ≤ now) := by
  rcases t with ⟨name, delay, rep, remaining, lastRun, pausedAt, tpt,
    channels, kind⟩
  simp only at hk
  subst hk
  refine ⟨rfl, rfl, fun now => ?_⟩
  show decide (delay ≤ now - (lastRun + (tr - tp))) = true ↔ _
  rw [decide_eq_true_eq]
  constructor <;> intro h <;> linarith

/-- Witness for `pause_resume_correction`: delay 5, lastRun 0, paused at 10
and resumed at 17 → the task becomes due at 5 + 7 = 12. -/
theorem pause_resume_correction_witness :
    (mkScheduledTask "t" 5 1 ["global"] 0).kind = TaskKind.plain ∧
    (((mkScheduledTask "t" 5 1 ["global"] 0).notifyPaused 10).notifyResumed
      17).lastRun = 0 + (17 - 10) ∧
    ((((mkScheduledTask "t" 5 1 ["global"] 0).notifyPaused 10).notifyResumed
      17).shouldRun 12 = true ↔ (0 + 5) + (17 - 10) ≤ (12 : ℚ)) :=
  have h := pause_resume_correction (mkScheduledTask "t" 5 1 ["global"] 0)
    10 17 rfl
  ⟨rfl, h.1, h.2.2 12⟩

/-! ### Claim C6 -/

/-- C6 (Animation interpolation and completion): an `AnimationTask` with the
identity curve, `startVal 0`, `endVal 10`, duration `D > 0`, started at
`t0`, never paused: a `run` at elapsed 0 passes 0 to the callback, a `run`
at elapsed `D` passes 10, every value passed is in `[0, 10]` (raw progress
is clamped to `[0, 1]`), and `run` reports the task inactive — which makes
the scheduler remove it — exactly for ticks with elapsed ≥ D. -/
theorem animation_interpolation (D t0 : ℚ) (hD : 0 < D) :
    ((mkAnimationTask "a" 0 10 (fun x => x) D ["global", "animation"]
      t0).run t0).2.2 = some 0 ∧
    ((mkAnimationTask "a" 0 10 (fun x => x) D ["global", "animation"]
      t0).run (t0 + D)).2.2 = some 10 ∧
    (∀ now : ℚ, ((mkAnimationTask "a" 0 10 (fun x => x) D
      ["global", "animation"] t0).run now).2.1 = false ↔ D ≤ now - t0) ∧
    (∀ now : ℚ, ∃ q : ℚ, ((mkAnimationTask "a" 0 10 (fun x => x) D
      ["global", "animation"] t0).run now).2.2 = some q ∧
      0 ≤ q ∧ q ≤ 10) := by
  have hD0 : D ≠ 0 := ne_of_gt hD
  refine ⟨?_, ?_, fun now => ?_, fun now => ?_⟩
  · show some (0 + (10 - 0) * (min 1 (max 0 ((t0 - t0 - 0) / D)))) = some 0
    norm_num
  · show some (0 + (10 - 0) * (min 1 (max 0 ((t0 + D - t0 - 0) / D))))
      = some 10
    have : (t0 + D - t0 - 0) / D = 1 := by
      field_simp
    rw [this]
    norm_num
  · show decide (now - t0 - 0 < D) = false ↔ D ≤ now - t0
    rw [decide_eq_false_iff_not]
    constructor <;> intro h <;> [linarith; linarith]
  · refine ⟨0 + (10 - 0) * (min 1 (max 0 ((now - t0 - 0) / D))), rfl,
      ?_, ?_⟩
    · have h1 : (0 : ℚ) ≤ max 0 ((now - t0 - 0) / D) := le_max_left 0 _
      have h2 : (0 : ℚ) ≤ min 1 (max 0 ((now - t0 - 0) / D)) :=
        le_min (by norm_num) h1
      nlinarith
    · have h2 : min 1 (max 0 ((now - t0 - 0) / D)) ≤ 1 := min_le_left 1 _
      nlinarith

/-- Witness for `animation_interpolation` at `D = 100`, `t0 = 0`. -/
theorem animation_interpolation_witness :
    (0 : ℚ) < 100 ∧
    ((mkAnimationTask "a" 0 10 (fun x => x) 100 ["global", "animation"]
      0).run 0).2.2 = some 0 ∧
    ((mkAnimationTask "a" 0 10 (fun x => x) 100 ["global", "animation"]
      0).run (0 + 100)).2.2 = some 10 ∧
    (((mkAnimationTask "a" 0 10 (fun x => x) 100 ["global", "animation"]
      0).run 100).2.1 = false ↔ (100 : ℚ) ≤ 100 - 0) :=
  have h := animation_interpolation 100 0 (by norm_num)
  ⟨by norm_num, h.1, h.2.1, h.2.2.1 100⟩

/-! ### Claim C10 -/

/-- Fixture: a plain task named "t" with zero delay — the state such a task
reaches after some runs, parametrised by the current `remaining` count. -/
def soloTask (rep remaining : Int) (t0 : ℚ) : Task :=
  { name := "t", delay := 0, rep := rep, remaining := remaining,
    lastRun := t0, pausedAt := none, totalPausedTime := 0,
    channels := ["global"], kind := .plain }

theorem tick_solo (r rem : Int) (hr : ¬ r = INFINITE) (t0 : ℚ)
    (s : Scheduler) (hts : s.tasks = [soloTask r rem t0])
    (hpc : s.pausedChannels = []) :
    (s.tick t0).2 = [("t", none)] ∧
    (s.tick t0).1.pausedChannels = [] ∧
    (¬ rem - 1 = 0 → (s.tick t0).1.tasks = [soloTask r (rem - 1) t0]) ∧
    (rem - 1 = 0 → (s.tick t0).1.tasks = []) := by
  have step : tickTasks [] t0 [soloTask r rem t0] =
      (if rem - 1 = 0 then ([], [("t", none)])
       else ([soloTask r (rem - 1) t0], [("t", none)])) := by
    by_cases hrm : rem - 1 = 0 <;>
      simp [tickTasks, soloTask, Task.shouldRun, Task.run, hr, hrm]
  show (tickTasks s.pausedChannels t0 s.tasks).2 = [("t", none)] ∧
    s.pausedChannels = [] ∧
    (¬ rem - 1 = 0 →
      (tickTasks s.pausedChannels t0 s.tasks).1 = [soloTask r (rem - 1) t0]) ∧
    (rem - 1 = 0 → (tickTasks s.pausedChannels t0 s.tasks).1 = [])
  rw [hts, hpc, step]
  by_cases hrm : rem - 1 = 0
  · rw [if_pos hrm]
    exact ⟨rfl, rfl, fun h => absurd hrm h, fun _ => rfl⟩
  · rw [if_neg hrm]
    exact ⟨rfl, rfl, fun _ => rfl, fun h => absurd h hrm⟩

theorem tickN_no_tasks : ∀ (times : List ℚ) (s : Scheduler),
    s.tasks = [] → (s.tickN times).1.tasks = [] ∧ (s.tickN times).2 = []
  | [], _, h => ⟨h, rfl⟩
  | now :: rest, s, h => by
    have htick : (s.tick now).1.tasks = [] ∧ (s.tick now).2 = [] := by
      constructor
      · show (tickTasks s.pausedChannels now s.tasks).1 = []
        rw [h]
        rfl
      · show (tickTasks s.pausedChannels now s.tasks).2 = []
        rw [h]
        rfl
    have ih := tickN_no_tasks rest (s.tick now).1 htick.1
    show ((s.tick now).1.tickN rest).1.tasks = [] ∧
      (s.tick now).2 ++ ((s.tick now).1.tickN rest).2 = []
    exact ⟨ih.1, by rw [htick.2, ih.2]; rfl⟩

theorem tickN_countdown (r : Int) (hr : ¬ r = INFINITE) (t0 : ℚ) :
    ∀ (j m : ℕ) (s : Scheduler),
      s.tasks = [soloTask r ((m : Int) + 1) t0] → s.pausedChannels = [] →
      ((s.tickN (List.replicate j t0)).2.length = min j (m + 1)) ∧
      (j ≤ m → (s.tickN (List.replicate j t0)).1.tasks
        = [soloTask r ((m : Int) - (j : Int) + 1) t0]) ∧
      ((m + 1) ≤ j → (s.tickN (List.replicate j t0)).1.tasks = [])
  | 0, m, s, hts, _ => by
    refine ⟨by simp [Scheduler.tickN], fun _ => ?_, fun hj => by omega⟩
    show s.tasks = _
    rw [hts]
    norm_num
  | j + 1, m, s, hts, hpc => by
    have hsolo := tick_solo r ((m : Int) + 1) hr t0 s hts hpc
    rw [List.replicate_succ]
    simp only [Scheduler.tickN]
    cases m with
    | zero =>
      have htasks := hsolo.2.2.2 (by norm_num)
      have hrest := tickN_no_tasks (List.replicate j t0) (s.tick t0).1 htasks
      refine ⟨?_, fun hj => by omega, fun _ => hrest.1⟩
      rw [List.length_append, hsolo.1, hrest.2]
      simp
    | succ m' =>
      have hne : ¬ (((m' + 1 : ℕ) : Int) + 1) - 1 = 0 := by
        push_cast
        omega
      have htasks := hsolo.2.2.1 hne
      rw [show ((((m' + 1 : ℕ)) : Int) + 1) - 1 = ((m' : Int) + 1) by
        push_cast; ring] at htasks
      have ih := tickN_countdown r hr t0 j m' (s.tick t0).1 htasks hsolo.2.1
      refine ⟨?_, fun hj => ?_, fun hj => ?_⟩
      · rw [List.length_append, hsolo.1, ih.1]
        simp only [List.length_singleton]
        omega
      · rw [ih.2.1 (by omega)]
        rw [show ((m' : Int) - (j : Int) + 1)
            = (((m' + 1 : ℕ) : Int) - ((j + 1 : ℕ) : Int) + 1) by
          push_cast; ring]
      · exact ih.2.2 (by omega)

theorem tickN_nonpos (r : Int) (hr : ¬ r = INFINITE) (t0 : ℚ) :
    ∀ (j : ℕ) (m : Int), m ≤ 0 → ∀ (s : Scheduler),
      s.tasks = [soloTask r m t0] → s.pausedChannels = [] →
      ((s.tickN (List.replicate j t0)).2.length = j) ∧
      ((s.tickN (List.replicate j t0)).1.tasks
        = [soloTask r (m - (j : Int)) t0])
  | 0, m, _, s, hts, _ => by
    refine ⟨rfl, ?_⟩
    show s.tasks = _
    rw [hts]
    norm_num
  | j + 1, m, hm, s, hts, hpc => by
    have hsolo := tick_solo r m hr t0 s hts hpc
    have hne : ¬ m - 1 = 0 := by omega
    have htasks := hsolo.2.2.1 hne
    have ih := tickN_nonpos r hr t0 j (m - 1) (by omega) (s.tick t0).1
      htasks hsolo.2.1
    rw [List.replicate_succ]
    simp only [Scheduler.tickN]
    refine ⟨?_, ?_⟩
    · rw [List.length_append, hsolo.1, ih.1]
      simp only [List.length_singleton]
      omega
    · rw [ih.2]
      rw [show (m - 1 - (j : Int)) = (m - ((j + 1 : ℕ) : Int)) by
        push_cast; ring]

/-- C10 (Repeat-count edge case): a plain task added with `repeat = n ≥ 1`
and zero delay, ticked `m ≥ n` times at its due instant, executes its
callback exactly `n` times and is then removed as exhausted; a task added
with `repeat = 0` is never removed — its first run takes `remaining` to
`-1` and `run` returns `remaining !== 0`, so for every number of ticks `j`
the callback executes `j` times and the task is still scheduled. -/
theorem repeat_zero_runs_forever (n m : ℕ) (hn : 1 ≤ n) (hm : n ≤ m)
    (t0 : ℚ) :
    (((initScheduler.add "t" 0 (n : Int) ["global"] t0).tickN
      (List.replicate m t0)).2.length = n) ∧
    (((initScheduler.add "t" 0 (n : Int) ["global"] t0).tickN
      (List.replicate m t0)).1.tasks = []) ∧
    (∀ j : ℕ,
      (((initScheduler.add "t" 0 0 ["global"] t0).tickN
        (List.replicate j t0)).2.length = j) ∧
      (((initScheduler.add "t" 0 0 ["global"] t0).tickN
        (List.replicate j t0)).1.tasks.map Task.name = ["t"])) := by
  have hrn : ¬ (n : Int) = INFINITE := by
    unfold INFINITE
    omega
  have hr0 : ¬ (0 : Int) = INFINITE := by
    unfold INFINITE
    omega
  have htsn : (initScheduler.add "t" 0 (n : Int) ["global"] t0).tasks
      = [soloTask (n : Int) (((n - 1 : ℕ) : Int) + 1) t0] := by
    show [mkScheduledTask "t" 0 (n : Int) ["global"] t0] = _
    unfold mkScheduledTask soloTask
    congr 1
    congr 1
    omega
  have hts0 : (initScheduler.add "t" 0 0 ["global"] t0).tasks
      = [soloTask 0 0 t0] := rfl
  have hcnt := tickN_countdown (n : Int) hrn t0 m (n - 1)
    (initScheduler.add "t" 0 (n : Int) ["global"] t0) htsn rfl
  refine ⟨?_, ?_, fun j => ?_⟩
  · rw [hcnt.1]
    omega
  · exact hcnt.2.2 (by omega)
  · have hnp := tickN_nonpos 0 hr0 t0 j 0 (by omega)
      (initScheduler.add "t" 0 0 ["global"] t0) hts0 rfl
    exact ⟨hnp.1, by rw [hnp.2]; rfl⟩

/-- Witness for `repeat_zero_runs_forever` with `n = 2`, `m = 3`,
`t0 = 0`: the repeat-2 task fires twice over three due ticks and is gone;
the repeat-0 task fires on all three ticks and survives. -/
theorem repeat_zero_runs_forever_witness :
    (1 ≤ 2 ∧ 2 ≤ 3) ∧
    (((initScheduler.add "t" 0 ((2 : ℕ) : Int) ["global"] 0).tickN
      (List.replicate 3 0)).2.length = 2) ∧
    (((initScheduler.add "t" 0 ((2 : ℕ) : Int) ["global"] 0).tickN
      (List.replicate 3 0)).1.tasks = []) ∧
    (((initScheduler.add "t" 0 0 ["global"] 0).tickN
      (List.replicate 3 0)).2.length = 3) :=
  have h := repeat_zero_runs_forever 2 3 (by norm_num) (by norm_num) 0
  ⟨⟨by norm_num, by norm_num⟩, h.1, h.2.1, (h.2.2 3).1⟩

/-! ## Unit position binding

For the reactive position binding we need the store together with the
units it drives: a small world of unit states, store data and per-key
listener lists, where a listener is the deep-embedded `updatePosition`
closure created by `bindPositionRelativeTo`.  Executing a listener may
itself call `update("pos", ...)` → `store.set` → further listeners, so the
interpreter carries fuel (the source recursion is unguarded; two units of
fuel suffice for a single binding because a binding deliberately does not
listen on its own unit's `pos`). -/

structure Pt where
  x : ℚ
  y : ℚ
deriving DecidableEq

structure Sz where
  width : ℚ
  height : ℚ
deriving DecidableEq

/-- The `{x, y, width, height}` boxes `updatePosition` builds from `pos`
and `size`. -/
structure Box where
  x : ℚ
  y : ℚ
  width : ℚ
  height : ℚ

/-- The slice of a `Unit`'s state that position binding reads and writes:
`updatePosition` only touches `pos` and `size` (the commented-out measured
bounds are not used by the source). -/
structure UnitState where
  name : String
  pos : Pt
  size : Sz

/-- A store value, as mirrored by `Unit.update("pos", value)`. -/
inductive WVal where
  | pt (p : Pt)

/-- A deep-embedded store listener: the `updatePosition` closure of
`bindPositionRelativeTo(otherUnit, direction, offset)` registered by
`selfName`. -/
inductive Action where
  | bindingUpdate (selfName otherName : String) (direction : String)
      (padX padY : ℚ)

/-- Units, store data and store listener lists. -/
structure World where
  units : List UnitState
  data : List (String × WVal)
  listeners : List (String × List Action)

def wListenersOf (w : World) (k : String) : List Action :=
  match w.listeners.find? (fun p => p.1 == k) with
  | some p => p.2
  | none => []

/-- Source `this[attr] = value` for `attr = "pos"`. -/
def setUnitPos (w : World) (n : String) (p : Pt) : World :=
  { w with units := w.units.map (fun u =>
      if u.name == n then { u with pos := p } else u) }

/-- The `switch (direction)` of `updatePosition`, before the offset is
added; the `default` case centres both axes. -/
def placeRelative (direction : String) (thisBox otherBox : Box) : Pt :=
  match direction with
  | "top-left" =>
    ⟨otherBox.x - thisBox.width, otherBox.y - thisBox.height⟩
  | "top-right" =>
    ⟨otherBox.x + otherBox.width, otherBox.y - thisBox.height⟩
  | "bottom-left" =>
    ⟨otherBox.x - thisBox.width, otherBox.y + otherBox.height⟩
  | "bottom-right" =>
    ⟨otherBox.x + otherBox.width, otherBox.y + otherBox.height⟩
  | "left" =>
    ⟨otherBox.x - thisBox.width,
     otherBox.y + (otherBox.height - thisBox.height) / 2⟩
  | "right" =>
    ⟨otherBox.x + otherBox.width,
     otherBox.y + (otherBox.height - thisBox.height) / 2⟩
  | "top" =>
    ⟨otherBox.x + (otherBox.width - thisBox.width) / 2,
     otherBox.y - thisBox.height⟩
  | "bottom" =>
    ⟨otherBox.x + (otherBox.width - thisBox.width) / 2,
     otherBox.y + otherBox.height⟩
  | _ =>
    ⟨otherBox.x + (otherBox.width - thisBox.width) / 2,
     otherBox.y + (otherBox.height - thisBox.height) / 2⟩

/-- Run one listener: `updatePosition` reads the **current** boxes of the
two units, computes the directional placement plus offset, and performs
`this.update("pos", {newX, newY})` — which assigns the unit's `pos`,
mirrors it into the store under `"<name>::pos"`, and synchronously runs the
listeners registered on that key. -/
def runAction : ℕ → World → Action → World
  | 0, w, _ => w
  | fuel + 1, w, .bindingUpdate selfN otherN direction padX padY =>
    match w.units.find? (fun u => u.name == selfN),
        w.units.find? (fun u => u.name == otherN) with
    | some su, some ou =>
      let thisBox : Box := ⟨su.pos.x, su.pos.y, su.size.width,
        su.size.height⟩
      let otherBox : Box := ⟨ou.pos.x, ou.pos.y, ou.size.width,
        ou.size.height⟩
      let base := placeRelative direction thisBox otherBox
      let newPos : Pt := ⟨base.x + padX, base.y + padY⟩
      let w1 := setUnitPos w selfN newPos
      let key := selfN ++ "::pos"
      let w2 := { w1 with data := (key, WVal.pt newPos) :: w1.data }
      (wListenersOf w2 key).foldl (fun wa a => runAction fuel wa a) w2
    | _, _ => w

/-- Source `store.set(key, value)` in the world model: record the value, then run
the key's listeners in order. -/
def storeSet (fuel : ℕ) (w : World) (key : String) (v : WVal) : World :=
  let w1 := { w with data := (key, v) :: w.data }
  (wListenersOf w1 key).foldl (fun wa a => runAction fuel wa a) w1

/-- Source `Unit.update("pos", p)`: assign the attribute, then mirror it into the
store (which dispatches synchronously). -/
def unitUpdatePos (fuel : ℕ) (w : World) (n : String) (p : Pt) : World :=
  storeSet fuel (setUnitPos w n p) (n ++ "::pos") (WVal.pt p)

/-- Source `store.onChange(key, fn)` for a deep-embedded listener. -/
def addWListener (w : World) (k : String) (a : Action) : World :=
  { w with listeners := updateAssoc w.listeners k (wListenersOf w k ++ [a]) }

/-- Source `bindPositionRelativeTo(otherUnit, direction, offset)`: register the
`updatePosition` closure on `other.pos/size/rot/scale` and on this unit's
own `size/rot/scale` (its own `pos` is deliberately excluded), then fire it
once for initial placement. -/
def bindPositionRelativeTo (fuel : ℕ) (w : World) (selfN otherN : String)
    (direction : String) (padX padY : ℚ) : World :=
  let a := Action.bindingUpdate selfN otherN direction padX padY
  let w1 := addWListener w (otherN ++ "::pos") a
  let w2 := addWListener w1 (otherN ++ "::size") a
  let w3 := addWListener w2 (otherN ++ "::rot") a
  let w4 := addWListener w3 (otherN ++ "::scale") a
  let w5 := addWListener w4 (selfN ++ "::size") a
  let w6 := addWListener w5 (selfN ++ "::rot") a
  let w7 := addWListener w6 (selfN ++ "::scale") a
  runAction fuel w7 a

def getUnitPos (w : World) (n : String) : Option Pt :=
  (w.units.find? (fun u => u.name == n)).map UnitState.pos

/-- C7 (Position-binding propagation): after
`B.bindPositionRelativeTo(A, "right", {x:5})` in a world holding units "A"
and "B", (i) the binding fires once immediately, placing B at
`(A.pos.x + A.size.width + 5, A.pos.y + (A.size.height - B.size.height)/2)`;
(ii) for every point `p`, `A.update("pos", p)` synchronously — inside the
same `store.set` dispatch, with no extra tick and for every recursion
budget of at least 2 — leaves A at `p` and B at
`(p.x + A.size.width + 5, p.y + (A.size.height - B.size.height)/2)`. -/
theorem position_binding_propagates (pA pB : Pt) (sA sB : Sz) (p : Pt)
    (f : ℕ) :
    (getUnitPos (bindPositionRelativeTo (f + 2)
        ⟨[⟨"A", pA, sA⟩, ⟨"B", pB, sB⟩], [], []⟩ "B" "A" "right" 5 0) "B"
      = some ⟨pA.x + sA.width + 5, pA.y + (sA.height - sB.height) / 2⟩) ∧
    (getUnitPos (unitUpdatePos (f + 2) (bindPositionRelativeTo (f + 2)
        ⟨[⟨"A", pA, sA⟩, ⟨"B", pB, sB⟩], [], []⟩ "B" "A" "right" 5 0)
        "A" p) "B"
      = some ⟨p.x + sA.width + 5, p.y + (sA.height - sB.height) / 2⟩) ∧
    (getUnitPos (unitUpdatePos (f + 2) (bindPositionRelativeTo (f + 2)
        ⟨[⟨"A", pA, sA⟩, ⟨"B", pB, sB⟩], [], []⟩ "B" "A" "right" 5 0)
        "A" p) "A" = some p) := by
  have e1 : bindPositionRelativeTo (f + 2)
      ⟨[⟨"A", pA, sA⟩, ⟨"B", pB, sB⟩], [], []⟩ "B" "A" "right" 5 0
      = ⟨[⟨"A", pA, sA⟩,
          ⟨"B", ⟨pA.x + sA.width + 5, pA.y + (sA.height - sB.height) / 2⟩,
            sB⟩],
         [("B::pos", WVal.pt ⟨pA.x + sA.width + 5,
            pA.y + (sA.height - sB.height) / 2⟩)],
         [("A::pos", [Action.bindingUpdate "B" "A" "right" 5 0]),
          ("A::size", [Action.bindingUpdate "B" "A" "right" 5 0]),
          ("A::rot", [Action.bindingUpdate "B" "A" "right" 5 0]),
          ("A::scale", [Action.bindingUpdate "B" "A" "right" 5 0]),
          ("B::size", [Action.bindingUpdate "B" "A" "right" 5 0]),
          ("B::rot", [Action.bindingUpdate "B" "A" "right" 5 0]),
          ("B::scale", [Action.bindingUpdate "B" "A" "right" 5 0])]⟩ := by
    simp [bindPositionRelativeTo, addWListener, updateAssoc, wListenersOf,
      runAction, setUnitPos, storeSet, placeRelative, List.find?]
  rw [e1]
  refine ⟨?_, ?_, ?_⟩
  · simp [getUnitPos, List.find?]
  · simp [unitUpdatePos, storeSet, setUnitPos, wListenersOf, runAction,
      placeRelative, getUnitPos, List.find?]
  · simp [unitUpdatePos, storeSet, setUnitPos, wListenersOf, runAction,
      placeRelative, getUnitPos, List.find?]

/-! ## Gesture dispatch (claim C8)

The click handler's loop body, abstracted over how a unit answers its hit
test and its `enabled` flag:
`for (let unit of [...units].reverse()) { if (unit.hitTest(x,y) &&
unit.enabled) { unit.onClick(event); break; } }`. -/

/-- The `for ... break` scan: returns the units whose `onClick` fires, in
order — at most one, because the loop breaks at the first hit. -/
def clickLoop {α : Type} (hitTest enabled : α → Bool) : List α → List α
  | [] => []
  | u :: rest =>
    if hitTest u && enabled u then [u]
    else clickLoop hitTest enabled rest

/-- The click handler: scan the unit collection in reverse registration
order. -/
def dispatchClick {α : Type} (hitTest enabled : α → Bool)
    (units : List α) : List α :=
  clickLoop hitTest enabled units.reverse

theorem clickLoop_spec {α : Type} (hitTest enabled : α → Bool) :
    ∀ (l : List α), (∃ u ∈ l, hitTest u = true ∧ enabled u = true) →
      ∃ w, clickLoop hitTest enabled l = [w] ∧ w ∈ l ∧
        hitTest w = true ∧ enabled w = true ∧
        ∃ l1 l2, l = l1 ++ w :: l2 ∧
          ∀ v ∈ l1, ¬(hitTest v = true ∧ enabled v = true)
  | [], h => by simp at h
  | a :: rest, h => by
    by_cases ha : (hitTest a && enabled a) = true
    · rcases Bool.and_eq_true_iff.mp ha with ⟨ha1, ha2⟩
      refine ⟨a, ?_, List.mem_cons_self .., ha1, ha2, [], rest, rfl,
        by simp⟩
      simp [clickLoop, ha]
    · have hrest : ∃ u ∈ rest, hitTest u = true ∧ enabled u = true := by
        rcases h with ⟨u, hu, hu1, hu2⟩
        rcases List.mem_cons.mp hu with rfl | hu'
        · exact absurd (by rw [hu1, hu2]; rfl) ha
        · exact ⟨u, hu', hu1, hu2⟩
      obtain ⟨w, h1, h2, h3, h4, l1, l2, h5, h6⟩ :=
        clickLoop_spec hitTest enabled rest hrest
      refine ⟨w, ?_, List.mem_cons_of_mem _ h2, h3, h4, a :: l1, l2,
        by rw [List.cons_append, h5], ?_⟩
      · simp only [clickLoop, ha, if_false]
        exact h1
      · intro v hv
        rcases List.mem_cons.mp hv with rfl | hv'
        · intro hc
          exact ha (by rw [hc.1, hc.2]; rfl)
        · exact h6 v hv'

/-- C8 (Topmost-wins dispatch): whenever some enabled unit's hit test
accepts the click point, exactly one unit receives `onClick`: the first
enabled hit unit encountered while scanning the unit list in reverse order
— every unit scanned before it failed the `hitTest && enabled` check, and
the break means no further unit is even considered. -/
theorem topmost_wins {α : Type} (hitTest enabled : α → Bool)
    (units : List α) (u : α) (hu : u ∈ units) (hhit : hitTest u = true)
    (hen : enabled u = true) :
    ∃ w, dispatchClick hitTest enabled units = [w] ∧ w ∈ units ∧
      hitTest w = true ∧ enabled w = true ∧
      ∃ l1 l2, units.reverse = l1 ++ w :: l2 ∧
        ∀ v ∈ l1, ¬(hitTest v = true ∧ enabled v = true) := by
  obtain ⟨w, h1, h2, h3, h4, l1, l2, h5, h6⟩ :=
    clickLoop_spec hitTest enabled units.reverse
      ⟨u, List.mem_reverse.mpr hu, hhit, hen⟩
  exact ⟨w, h1, List.mem_reverse.mp h2, h3, h4, l1, l2, h5, h6⟩

/-- Witness for `topmost_wins`: two overlapping enabled units 0 and 1 (unit
1 registered later) — the click goes to exactly one of them. -/
theorem topmost_wins_witness :
    (0 : ℕ) ∈ [0, 1] ∧
    ∃ w, dispatchClick (fun _ : ℕ => true) (fun _ : ℕ => true) [0, 1]
        = [w] ∧ w ∈ [0, 1] ∧
      (fun _ : ℕ => true) w = true ∧ (fun _ : ℕ => true) w = true ∧
      ∃ l1 l2, [0, 1].reverse = l1 ++ w :: l2 ∧
        ∀ v ∈ l1, ¬((fun _ : ℕ => true) v = true ∧
          (fun _ : ℕ => true) v = true) :=
  ⟨by decide, topmost_wins (fun _ : ℕ => true) (fun _ : ℕ => true) [0, 1]
    0 (by decide) rfl rfl⟩

/-! ## Default hit test (claim C9) -/

/-- The geometry a unit's default hit test reads: `pos`, `size`, `scale`
and `rot.x` (the single angle). -/
structure Geom where
  posX : ℝ
  posY : ℝ
  width : ℝ
  height : ℝ
  scaleX : ℝ
  scaleY : ℝ
  rotX : ℝ

/-- Source `hitTestDefaultFactory(unit)`: move the query point to local
coordinates relative to the center `getCenterPos()` (which is
`pos + size/2`), apply the rotation matrix built from `sin(-rot.x)` and
`cos(-rot.x)`, divide by `scale`, shift by half the size, and test the
axis-aligned box `[0, width] × [0, height]`. -/
def hitTestDefault (u : Geom) (x y : ℝ) : Prop :=
  let cx := u.posX + u.width / 2
  let cy := u.posY + u.height / 2
  let lx := x - cx
  let ly := y - cy
  let s := Real.sin (-u.rotX)
  let c := Real.cos (-u.rotX)
  let rx := (lx * c - ly * s) / u.scaleX
  let ry := (lx * s + ly * c) / u.scaleY
  let finalX := rx + u.width / 2
  let finalY := ry + u.height / 2
  0 ≤ finalX ∧ 0 ≤ finalY ∧ finalX ≤ u.width ∧ finalY ≤ u.height

/-- Modelled from the spec's words, for comparison: "transform the query
point into the unit's local, un-rotated, un-scaled space (translate by
negative center, inverse-rotate, divide by scale, then shift into a
`[0,width] × [0,height]` box) and test axis-aligned containment".  The
inverse rotation by `rot.x` is the rotation through `-rot.x`, written here
directly with `sin rot.x` and `cos rot.x`. -/
def hitTestSpec (u : Geom) (x y : ℝ) : Prop :=
  let lx := x - (u.posX + u.width / 2)
  let ly := y - (u.posY + u.height / 2)
  let rx := (lx * Real.cos u.rotX + ly * Real.sin u.rotX) / u.scaleX
  let ry := (-(lx * Real.sin u.rotX) + ly * Real.cos u.rotX) / u.scaleY
  let fx := rx + u.width / 2
  let fy := ry + u.height / 2
  0 ≤ fx ∧ 0 ≤ fy ∧ fx ≤ u.width ∧ fy ≤ u.height

/-- C9 (Default hit-test correctness): the source's hit test accepts a
point exactly when the spec's transform lands it in the
`[0,width] × [0,height]` box; an unrotated, unscaled unit at pos (10,10)
with size (100,100) contains (50,50) and not (200,200); and rotation moves
the hit region: a 100×20 unit at the origin rotated by π/2 contains
(50,55), which the unrotated unit does not. -/
theorem hit_test_default :
    (∀ (u : Geom) (x y : ℝ), hitTestDefault u x y ↔ hitTestSpec u x y) ∧
    hitTestDefault ⟨10, 10, 100, 100, 1, 1, 0⟩ 50 50 ∧
    ¬ hitTestDefault ⟨10, 10, 100, 100, 1, 1, 0⟩ 200 200 ∧
    hitTestDefault ⟨0, 0, 100, 20, 1, 1, Real.pi / 2⟩ 50 55 ∧
    ¬ hitTestDefault ⟨0, 0, 100, 20, 1, 1, 0⟩ 50 55 := by
  refine ⟨fun u x y => ?_, ?_, ?_, ?_, ?_⟩
  · unfold hitTestDefault hitTestSpec
    rw [Real.sin_neg, Real.cos_neg]
    ring_nf
  · unfold hitTestDefault
    simp only [neg_zero, Real.sin_zero, Real.cos_zero]
    norm_num
  · unfold hitTestDefault
    simp only [neg_zero, Real.sin_zero, Real.cos_zero]
    norm_num
  · unfold hitTestDefault
    simp only [Real.sin_neg, Real.cos_neg, Real.sin_pi_div_two,
      Real.cos_pi_div_two]
    norm_num
  · unfold hitTestDefault
    simp only [neg_zero, Real.sin_zero, Real.cos_zero]
    norm_num

end StaticHost
